import Mathlib

/-!
Verification of the image-renamer tool (`renameFiles.py`) against its
specification.  The script operates on a single directory; we model the
directory as the list of names of the plain files it contains, and the
renamer as pure functions over that list.  Machine strings are modelled
as Lean `String`s, but every operation the script performs on them
(lower-casing, suffix extraction, placeholder replacement, comparison,
zero-padded decimal formatting) is (re)defined here over the underlying
character lists so that all definitions are executable and reduce in the
kernel.  Filesystem errors during a rename are modelled by a per-file
failure oracle `fails : Nat → Bool` (position-indexed): the script
catches any exception of `file_path.rename` and counts the file as
skipped.
-/

namespace RenameFiles

/-! ### Decimal formatting

`f"{i:03d}"` (and `str(i).zfill(3)`) produce the decimal digits of `i`,
left-padded with `'0'` to width at least 3.  We compute the little-endian
digit list with explicit fuel so that everything is structurally
recursive and kernel-evaluable. -/

/-- Little-endian decimal digits of `n`; `fuel` bounds the recursion depth
(`fuel = n` always suffices since `n / 10 < n` for `n ≥ 1`). -/
def digitsAux : Nat → Nat → List Nat
  | _, 0 => []
  | 0, _ + 1 => []
  | fuel + 1, n + 1 => ((n + 1) % 10) :: digitsAux fuel ((n + 1) / 10)

/-- Little-endian decimal digits of `n` (empty for `n = 0`). -/
def decDigits (n : Nat) : List Nat := digitsAux n n

/-- The ASCII digit character for a digit value `d < 10`. -/
def digitChar (d : Nat) : Char := Char.ofNat (48 + d)

/-- Python `str(n)` for a natural number. -/
def decStr (n : Nat) : String :=
  if n = 0 then "0" else (((decDigits n).map digitChar).reverse).asString

/-- Python `f"{n:0wd}"` / `str(n).zfill(w)`: decimal digits of `n`,
left-padded with `'0'` to width at least `w`. -/
def padDec (w n : Nat) : String :=
  (((decDigits n).map digitChar
      ++ List.replicate (w - (decDigits n).length) (digitChar 0)).reverse).asString

/-- Sequential-mode target name, line 128: `f"{i:03d}.jpg"` — the `.jpg`
extension is forced regardless of the source file's extension. -/
def seqName (i : Nat) : String := padDec 3 i ++ ".jpg"

/-- Collision-fallback name, line 140: `f"image_{n:03d}.jpg"`. -/
def fallbackName (n : Nat) : String := "image_" ++ padDec 3 n ++ ".jpg"

/-! ### Basic string operations of the script -/

/-- Python `str.lower`, character-wise (ASCII, as used on extensions). -/
def lowerStr (s : String) : String := (s.data.map Char.toLower).asString

/-- `pathlib.PurePath.suffix`: `name[i:]` where `i = name.rfind('.')`,
provided `0 < i < len(name) - 1`; otherwise the empty string. -/
def pathSuffix (name : String) : String :=
  match name.data.reverse.findIdx? (· = '.') with
  | none => ""
  | some j =>
    let i := name.data.length - 1 - j
    if 0 < i ∧ i < name.data.length - 1 then (name.data.drop i).asString else ""

/-- `self.supported_formats`, line 25. -/
def supportedFormats : List String :=
  [".jpg", ".jpeg", ".png", ".gif", ".bmp", ".tiff", ".webp", ".ico"]

/-- Lexicographic comparison of character lists by code point, the order
`sorted` uses on the path objects of one directory. -/
def ltChars : List Char → List Char → Bool
  | [], [] => false
  | [], _ :: _ => true
  | _ :: _, [] => false
  | a :: as, b :: bs =>
    if a.toNat < b.toNat then true
    else if b.toNat < a.toNat then false
    else ltChars as bs

/-- `a ≤ b` for file names (total preorder used by `sorted`). -/
def nameLe (a b : String) : Prop := ltChars b.data a.data = false

instance : DecidableRel nameLe := fun _ _ => inferInstanceAs (Decidable (_ = false))

/-- `get_image_files` (lines 29-35): keep the plain files whose
lower-cased suffix is a supported format, sorted by name.  The argument
is the directory listing (names of the plain files of the directory). -/
def getImageFiles (listing : List String) : List String :=
  List.insertionSort nameLe
    (listing.filter (fun n => decide (lowerStr (pathSuffix n) ∈ supportedFormats)))

/-! ### Metadata and name generation (`get_image_metadata`, `generate_new_name`) -/

/-- A timestamp, as far as `strftime` needs it. -/
structure DateTime where
  year : Nat
  month : Nat
  day : Nat
  hour : Nat
  minute : Nat
  second : Nat
deriving DecidableEq

/-- `strftime('%Y%m%d')`. -/
def fmtDate (t : DateTime) : String :=
  padDec 4 t.year ++ padDec 2 t.month ++ padDec 2 t.day

/-- `strftime('%H%M%S')`. -/
def fmtTime (t : DateTime) : String :=
  padDec 2 t.hour ++ padDec 2 t.minute ++ padDec 2 t.second

/-- `strftime('%Y%m%d_%H%M%S')`. -/
def fmtDateTime (t : DateTime) : String := fmtDate t ++ "_" ++ fmtTime t

/-- The metadata dictionary built by `get_image_metadata` (lines 42-63):
each key is present or absent, `none` modelling an absent key. -/
structure Metadata where
  width : Option Nat
  height : Option Nat
  format : Option String
  mode : Option String
  date_taken : Option String
  camera_make : Option String
  camera_model : Option String
deriving DecidableEq

/-- The empty metadata dictionary `{}`. -/
def emptyMetadata : Metadata := ⟨none, none, none, none, none, none, none⟩

/-- `get_image_metadata` (lines 37-66): if PIL is unavailable, `{}`;
otherwise the decoded metadata, or `{}` when opening/parsing raised
(the decode outcome of the external library is the `Option` argument). -/
def getImageMetadata (pilAvailable : Bool) (decoded : Option Metadata) : Metadata :=
  if pilAvailable then
    match decoded with
    | some m => m
    | none => emptyMetadata
  else emptyMetadata

/-- The stat-derived attributes of one file used by `generate_new_name`
(lines 70-74). -/
structure FileInfo where
  stem : String
  ext : String
  size : Nat
  ctime : DateTime
  mtime : DateTime
deriving DecidableEq

/-- One pass of Python `str.replace(pat, rep)` over a character list:
left-to-right, non-overlapping, as used with the non-empty placeholder
patterns.  `fuel = s.length` suffices since every step consumes at least
one character of `s`. -/
def replaceAux (pat rep : List Char) : Nat → List Char → List Char
  | _, [] => []
  | 0, s => s
  | fuel + 1, c :: s =>
    if pat.isPrefixOf (c :: s) then rep ++ replaceAux pat rep fuel ((c :: s).drop pat.length)
    else c :: replaceAux pat rep fuel s

/-- Python `s.replace(pat, rep)` for a non-empty pattern. -/
def replaceStr (s pat rep : String) : String :=
  (replaceAux pat.data rep.data s.data.length s.data).asString

/-- The replacement dictionary of `generate_new_name` (lines 81-95), in
source order.  Python truthiness: `counter` of `None` or `0` gives `''`;
`metadata.get('width')` of an absent key or `0` is falsy;
`metadata.get('camera_make')` of an absent key or `''` is falsy. -/
def replacements (f : FileInfo) (counter : Option Nat) (metadata : Metadata) :
    List (String × String) :=
  [("{original}", f.stem),
   ("{counter}", match counter with
     | some c => if c = 0 then "" else padDec 3 c
     | none => ""),
   ("{date}", fmtDate f.ctime),
   ("{time}", fmtTime f.ctime),
   ("{datetime}", fmtDateTime f.ctime),
   ("{mod_date}", fmtDate f.mtime),
   ("{mod_datetime}", fmtDateTime f.mtime),
   ("{size}", decStr f.size),
   ("{width}", match metadata.width with
     | some w => decStr w
     | none => ""),
   ("{height}", match metadata.height with
     | some h => decStr h
     | none => ""),
   ("{resolution}", match metadata.width with
     | some w =>
       if w = 0 then ""
       else decStr w ++ "x" ++ (match metadata.height with
         | some h => decStr h
         | none => "")
     | none => ""),
   ("{format}", match metadata.format with
     | some s => s
     | none => ""),
   ("{camera}", match metadata.camera_make with
     | some mk =>
       if mk = "" then ""
       else mk ++ "_" ++ (match metadata.camera_model with
         | some md => md
         | none => "")
     | none => "")]

/-- Lines 97-99: apply every replacement to the pattern, in dictionary
order. -/
def substitutePlaceholders (f : FileInfo) (pattern : String) (counter : Option Nat)
    (metadata : Metadata) : String :=
  (replacements f counter metadata).foldl (fun acc pv => replaceStr acc pv.1 pv.2) pattern

/-- The characters of the class `[<>:"/\\|?*]` of line 102. -/
def invalidChars : List Char := ['<', '>', ':', '"', '/', '\\', '|', '?', '*']

/-- Line 102: `re.sub(r'[<>:"/\\|?*]', '_', ·)`. -/
def replaceInvalid (l : List Char) : List Char :=
  l.map (fun c => if c ∈ invalidChars then '_' else c)

/-- Line 103: `re.sub(r'_+', '_', ·)` — collapse each run of consecutive
underscores to a single one. -/
def collapseU : List Char → List Char
  | [] => []
  | [c] => [c]
  | c1 :: c2 :: rest =>
    if c1 = '_' ∧ c2 = '_' then collapseU (c2 :: rest)
    else c1 :: collapseU (c2 :: rest)

/-- Line 104: `.strip('_')` — drop leading and trailing underscores. -/
def stripUnderscores (l : List Char) : List Char :=
  (((l.dropWhile (· = '_')).reverse.dropWhile (· = '_'))).reverse

/-- The clean-up of lines 102-104. -/
def sanitize (s : String) : String :=
  (stripUnderscores (collapseU (replaceInvalid s.data))).asString

/-- `generate_new_name` (lines 68-106): substitute the placeholders,
clean up the result, and append the original extension unchanged. -/
def generateNewName (f : FileInfo) (pattern : String) (counter : Option Nat)
    (metadata : Metadata) : String :=
  sanitize (substitutePlaceholders f pattern counter metadata) ++ f.ext

/-! ### The automatic (sequential) renamer and the entry point -/

/-- The fate of one planned file: state machine
`Planned → Renamed | Skipped(name unchanged) | Skipped(error)`. -/
inductive Outcome where
  | renamed (src dst : String)
  | skippedSame (src : String)
  | skippedError (src dst : String)
deriving DecidableEq

/-- The run state: the directory contents plus the two counters of
`ImageRenamer.__init__` (lines 26-27), together with the per-file log. -/
structure RenState where
  disk : List String
  renamedCount : Nat
  skippedCount : Nat
  log : List Outcome
deriving DecidableEq

/-- The `while new_path.exists()` loop of lines 138-143: try
`image_{count+c:03d}.jpg` for `c = 1, 2, …` until a name not on disk is
found.  The loop is modelled with fuel; `disk.length + 1` candidates
always contain a free name, so the fuel used below never runs out. -/
def fallbackLoop (disk : List String) (count : Nat) : Nat → Nat → String
  | 0, c => fallbackName (count + c)
  | fuel + 1, c =>
    if fallbackName (count + c) ∈ disk then fallbackLoop disk count fuel (c + 1)
    else fallbackName (count + c)

/-- Lines 136-143: if the planned destination exists on disk and is a
different path than the source, replace it by the first free fallback
name; otherwise keep it.  `count` is `len(image_files)`. -/
def resolveDst (count : Nat) (disk : List String) (src dst : String) : String :=
  if dst ∈ disk ∧ dst ≠ src then fallbackLoop disk count (disk.length + 1) 1 else dst

/-- Lines 134-157, one iteration: resolve the destination, skip when the
(possibly revised) destination has the source's name, otherwise rename —
a rename either succeeds (source removed, destination created) or raises
(`fail = true`), in which case the file is counted as skipped and the
directory is unchanged. -/
def processOne (count : Nat) (st : RenState) (src dst : String) (fail : Bool) : RenState :=
  let dst' := resolveDst count st.disk src dst
  if dst' = src then
    { st with skippedCount := st.skippedCount + 1, log := st.log ++ [Outcome.skippedSame src] }
  else if fail then
    { st with skippedCount := st.skippedCount + 1, log := st.log ++ [Outcome.skippedError src dst'] }
  else
    { disk := dst' :: st.disk.erase src,
      renamedCount := st.renamedCount + 1,
      skippedCount := st.skippedCount,
      log := st.log ++ [Outcome.renamed src dst'] }

/-- The `for file_path, new_path, new_name in files_to_rename` loop
(lines 134-157); `i` is the 0-based position used to query the failure
oracle. -/
def runPlan (count : Nat) (fails : Nat → Bool) :
    List (String × String) → Nat → RenState → RenState
  | [], _, st => st
  | (src, dst) :: rest, i, st =>
    runPlan count fails rest (i + 1) (processOne count st src dst (fails i))

/-- The planning loop of lines 125-131, generalized to an arbitrary
first index: pair the file at (1-based) position `i` with `seqName i`. -/
def mkPlanFrom (start : Nat) (images : List String) : List (String × String) :=
  ((List.range' start images.length).zip images).map (fun p => (p.2, seqName p.1))

/-- Lines 125-131 (`enumerate(image_files, 1)`). -/
def mkPlan (images : List String) : List (String × String) := mkPlanFrom 1 images

/-- The state a run starts from: the directory listing, both counters 0,
nothing logged. -/
def initState (listing : List String) : RenState := ⟨listing, 0, 0, []⟩

/-- The result of `rename_files_automatically`: whether the run aborted
because the directory does not exist, and the final state. -/
structure RunReport where
  dirMissing : Bool
  state : RenState
deriving DecidableEq

/-- `rename_files_automatically` (lines 108-161).  `none` models a path
that does not exist: the function reports the error and returns before
any rename (lines 111-113).  An empty image list also returns early
(lines 116-118).  Otherwise the plan is built and applied with
`count = len(image_files)`. -/
def renameFilesAutomatically (dir : Option (List String)) (fails : Nat → Bool) : RunReport :=
  match dir with
  | none => ⟨true, ⟨[], 0, 0, []⟩⟩
  | some listing =>
    let images := getImageFiles listing
    if images.isEmpty then ⟨false, initState listing⟩
    else ⟨false, runPlan images.length fails (mkPlan images) 0 (initState listing)⟩

/-- Python `str.strip()` (whitespace). -/
def stripStr (s : String) : String :=
  (((s.data.dropWhile Char.isWhitespace).reverse.dropWhile Char.isWhitespace)).reverse.asString

/-- Line 192-193: only `'y'` or `'yes'`, case-insensitively and after
stripping, confirms. -/
def confirmAccepted (response : String) : Bool :=
  (lowerStr (stripStr response) == "y") || (lowerStr (stripStr response) == "yes")

/-- How an execution of `main` ends. -/
inductive MainResult where
  | dirNotFound
  | cancelled
  | completed (st : RenState)
deriving DecidableEq

/-- `main` (lines 163-199): after resolving the entered path (modelled
by `world`: `none` iff the path does not exist, else the directory
listing), abort with an error when it does not exist (lines 185-187),
cancel unless the confirmation is accepted (lines 192-195), otherwise
run the automatic renamer.  The second component is the directory
contents after the run (`none` when there is no such directory). -/
def mainRun (world : Option (List String)) (response : String) (fails : Nat → Bool) :
    MainResult × Option (List String) :=
  match world with
  | none => (MainResult.dirNotFound, none)
  | some listing =>
    if confirmAccepted response then
      (MainResult.completed (renameFilesAutomatically (some listing) fails).state,
       some (renameFilesAutomatically (some listing) fails).state.disk)
    else (MainResult.cancelled, some listing)

/-- The destinations of the renames that actually happened, in order. -/
def renamedDests (log : List Outcome) : List String :=
  log.filterMap (fun o => match o with
    | Outcome.renamed _ d => some d
    | _ => none)

/-- Whether an outcome is a performed rename. -/
def isRenamedOutcome (o : Outcome) : Bool :=
  match o with
  | Outcome.renamed _ _ => true
  | _ => false

/-- Destination shapes a sequential run can produce: a sequential target
with index between 1 and `n`, or a fallback name with index above
`count`. -/
def destShape (count n : Nat) (d : String) : Prop :=
  (∃ i, 1 ≤ i ∧ i ≤ n ∧ d = seqName i) ∨ (∃ c, 1 ≤ c ∧ d = fallbackName (count + c))

/-- A concrete file used to exercise `generate_new_name`. -/
def samplePhoto : FileInfo :=
  ⟨"photo", ".png", 2048, ⟨2023, 5, 17, 10, 20, 30⟩, ⟨2023, 6, 1, 11, 22, 33⟩⟩

/-- Metadata as PIL would report it for a PNG. -/
def pngMetadata : Metadata :=
  ⟨some 640, some 480, some "PNG", some "RGB", none, none, none⟩

/-! ### Injectivity of the generated names -/

theorem ofDigits_digitsAux : ∀ (fuel n : Nat), n ≤ fuel →
    Nat.ofDigits 10 (digitsAux fuel n) = n := by
  intro fuel
  induction fuel with
  | zero =>
    intro n hn
    interval_cases n
    simp [digitsAux, Nat.ofDigits]
  | succ fuel ih =>
    intro n _
    match n with
    | 0 => simp [digitsAux, Nat.ofDigits]
    | m + 1 =>
      have hdiv : (m + 1) / 10 < m + 1 := Nat.div_lt_self (Nat.succ_pos m) (by norm_num)
      rw [digitsAux, Nat.ofDigits_cons, ih ((m + 1) / 10) (by omega), Nat.mod_add_div]

theorem ofDigits_decDigits (n : Nat) : Nat.ofDigits 10 (decDigits n) = n :=
  ofDigits_digitsAux n n (le_refl n)

theorem digitsAux_lt : ∀ (fuel n : Nat), ∀ d ∈ digitsAux fuel n, d < 10 := by
  intro fuel
  induction fuel with
  | zero =>
    intro n d hd
    match n with
    | 0 => simp [digitsAux] at hd
    | m + 1 => simp [digitsAux] at hd
  | succ fuel ih =>
    intro n d hd
    match n with
    | 0 => simp [digitsAux] at hd
    | m + 1 =>
      rw [digitsAux] at hd
      rcases List.mem_cons.mp hd with h | h
      · subst h
        exact Nat.mod_lt _ (by norm_num)
      · exact ih _ _ h

theorem decDigits_lt (n : Nat) : ∀ d ∈ decDigits n, d < 10 :=
  digitsAux_lt n n

theorem digitChar_toNat {d : Nat} (hd : d < 10) : (digitChar d).toNat - 48 = d := by
  have : ∀ d, d < 10 → (digitChar d).toNat - 48 = d := by decide
  exact this d hd

theorem ofDigits_replicate_zero : ∀ (k : Nat),
    Nat.ofDigits 10 (List.replicate k 0) = 0 := by
  intro k
  induction k with
  | zero => simp [Nat.ofDigits]
  | succ k ih => rw [List.replicate_succ, Nat.ofDigits_cons, ih]

/-- Reading the value back out of the zero-padded decimal representation. -/
theorem unpad_padDec (w n : Nat) :
    Nat.ofDigits 10 (((padDec w n).data.reverse).map (fun c => c.toNat - 48)) = n := by
  have hdata : (padDec w n).data =
      ((decDigits n).map digitChar
        ++ List.replicate (w - (decDigits n).length) (digitChar 0)).reverse := rfl
  rw [hdata, List.reverse_reverse, List.map_append, List.map_map, List.map_replicate]
  have h1 : ((decDigits n).map ((fun c => c.toNat - 48) ∘ digitChar)) = decDigits n := by
    calc (decDigits n).map ((fun c => c.toNat - 48) ∘ digitChar)
        = (decDigits n).map id := by
          apply List.map_congr_left
          intro d hd
          exact digitChar_toNat (decDigits_lt n d hd)
      _ = decDigits n := List.map_id _
  rw [h1]
  have h2 : (digitChar 0).toNat - 48 = 0 := by decide
  rw [h2, Nat.ofDigits_append, ofDigits_replicate_zero, ofDigits_decDigits]
  ring

theorem padDec_inj (w : Nat) {m n : Nat} (h : padDec w m = padDec w n) : m = n := by
  have h2 := congrArg (fun s : String =>
    Nat.ofDigits 10 ((s.data.reverse).map (fun c => c.toNat - 48))) h
  simpa only [unpad_padDec] using h2

theorem seqName_inj {i j : Nat} (h : seqName i = seqName j) : i = j := by
  apply padDec_inj 3
  have hd := congrArg String.data h
  rw [seqName, seqName, String.data_append, String.data_append] at hd
  have := List.append_cancel_right hd
  exact String.ext this

theorem fallbackName_inj {m n : Nat} (h : fallbackName m = fallbackName n) : m = n := by
  apply padDec_inj 3
  have hd := congrArg String.data h
  rw [fallbackName, fallbackName, String.data_append, String.data_append,
    String.data_append, String.data_append, List.append_assoc, List.append_assoc] at hd
  have h1 := List.append_cancel_left hd
  have h2 := List.append_cancel_right h1
  exact String.ext h2

/-! ### The collision-fallback loop -/

/-- Whatever happens, the loop returns a fallback-shaped name with index
at least its starting candidate. -/
theorem fallbackLoop_shape (disk : List String) (count : Nat) :
    ∀ (fuel c0 : Nat), ∃ k, fallbackLoop disk count fuel c0 = fallbackName (count + (c0 + k)) := by
  intro fuel
  induction fuel with
  | zero =>
    intro c0
    exact ⟨0, rfl⟩
  | succ fuel ih =>
    intro c0
    rw [fallbackLoop]
    split
    · obtain ⟨k, hk⟩ := ih (c0 + 1)
      exact ⟨k + 1, by rw [hk]; congr 1; omega⟩
    · exact ⟨0, rfl⟩

/-- If one of the next `fuel` candidates is free, the loop returns the
first free candidate. -/
theorem fallbackLoop_found (disk : List String) (count : Nat) :
    ∀ (fuel c0 : Nat), (∃ k < fuel, fallbackName (count + (c0 + k)) ∉ disk) →
    ∃ k, fallbackLoop disk count fuel c0 = fallbackName (count + (c0 + k)) ∧
      fallbackName (count + (c0 + k)) ∉ disk ∧
      ∀ j < k, fallbackName (count + (c0 + j)) ∈ disk := by
  intro fuel
  induction fuel with
  | zero =>
    rintro c0 ⟨k, hk, _⟩
    omega
  | succ fuel ih =>
    intro c0 hex
    rw [fallbackLoop]
    by_cases hmem : fallbackName (count + c0) ∈ disk
    · rw [if_pos hmem]
      have hex' : ∃ k < fuel, fallbackName (count + (c0 + 1 + k)) ∉ disk := by
        obtain ⟨k, hk, hfree⟩ := hex
        match k with
        | 0 =>
          exfalso
          exact hfree (by simpa using hmem)
        | k + 1 =>
          exact ⟨k, by omega, by convert hfree using 3; omega⟩
      obtain ⟨k, h1, h2, h3⟩ := ih (c0 + 1) hex'
      refine ⟨k + 1, by rw [h1]; congr 1; omega, by convert h2 using 3; omega, ?_⟩
      intro j hj
      match j with
      | 0 => simpa using hmem
      | j + 1 =>
        have := h3 j (by omega)
        convert this using 3
        omega
    · rw [if_neg hmem]
      exact ⟨0, rfl, by simpa using hmem, by omega⟩

/-- Among `disk.length + 1` distinct candidate names at least one is not
on the disk. -/
theorem fallback_candidate_free (disk : List String) (count c0 : Nat) :
    ∃ k < disk.length + 1, fallbackName (count + (c0 + k)) ∉ disk := by
  by_contra hall
  push_neg at hall
  set cands := (List.range (disk.length + 1)).map (fun k => fallbackName (count + (c0 + k)))
    with hcands
  have hnd : cands.Nodup := by
    refine List.Nodup.map ?_ (List.nodup_range _)
    intro a b hab
    have := fallbackName_inj hab
    omega
  have hsub : ∀ x ∈ cands, x ∈ disk := by
    intro x hx
    rw [hcands, List.mem_map] at hx
    obtain ⟨k, hk, rfl⟩ := hx
    exact hall k (List.mem_range.mp hk)
  have hcard : cands.toFinset.card = disk.length + 1 := by
    rw [List.toFinset_card_of_nodup hnd, hcands, List.length_map, List.length_range]
  have hle : cands.toFinset.card ≤ disk.toFinset.card := by
    apply Finset.card_le_card
    intro x hx
    rw [List.mem_toFinset] at hx ⊢
    exact hsub x hx
  have := List.toFinset_card_le disk
  omega

/-- The resolved destination either is the source itself (and the file
will be skipped) or does not exist on disk. -/
theorem resolveDst_spec (count : Nat) (disk : List String) (src dst : String) :
    resolveDst count disk src dst = src ∨ resolveDst count disk src dst ∉ disk := by
  rw [resolveDst]
  split
  · right
    obtain ⟨k, h1, h2, _⟩ := fallbackLoop_found disk count (disk.length + 1) 1
      (fallback_candidate_free disk count 1)
    rw [h1]
    exact h2
  · rename_i hcond
    by_cases hd : dst = src
    · left; exact hd
    · right
      intro hmem
      exact hcond ⟨hmem, hd⟩

/-- `resolveDst` at a colliding pair: the chosen name is the first free
fallback candidate `image_{count+c:03d}.jpg`, `c ≥ 1`. -/
theorem resolveDst_collision (count : Nat) (disk : List String) (src dst : String)
    (hmem : dst ∈ disk) (hne : dst ≠ src) :
    ∃ c, 1 ≤ c ∧ resolveDst count disk src dst = fallbackName (count + c) ∧
      fallbackName (count + c) ∉ disk ∧
      ∀ j, 1 ≤ j → j < c → fallbackName (count + j) ∈ disk := by
  rw [resolveDst, if_pos ⟨hmem, hne⟩]
  obtain ⟨k, h1, h2, h3⟩ := fallbackLoop_found disk count (disk.length + 1) 1
    (fallback_candidate_free disk count 1)
  refine ⟨1 + k, by omega, h1, h2, ?_⟩
  intro j hj1 hjk
  have := h3 (j - 1) (by omega)
  convert this using 2
  omega

/-! ### Step and plan lemmas -/

theorem processOne_same (count : Nat) (st : RenState) (src dst : String) (fail : Bool)
    (h : resolveDst count st.disk src dst = src) :
    processOne count st src dst fail =
      { st with skippedCount := st.skippedCount + 1,
                log := st.log ++ [Outcome.skippedSame src] } := by
  simp [processOne, h]

theorem processOne_fail (count : Nat) (st : RenState) (src dst : String)
    (h : resolveDst count st.disk src dst ≠ src) :
    processOne count st src dst true =
      { st with skippedCount := st.skippedCount + 1,
                log := st.log ++ [Outcome.skippedError src (resolveDst count st.disk src dst)] } := by
  simp [processOne, h]

theorem processOne_rename (count : Nat) (st : RenState) (src dst : String)
    (h : resolveDst count st.disk src dst ≠ src) :
    processOne count st src dst false =
      { disk := resolveDst count st.disk src dst :: st.disk.erase src,
        renamedCount := st.renamedCount + 1,
        skippedCount := st.skippedCount,
        log := st.log ++ [Outcome.renamed src (resolveDst count st.disk src dst)] } := by
  simp [processOne, h]

theorem runPlan_nil (count : Nat) (fails : Nat → Bool) (i : Nat) (st : RenState) :
    runPlan count fails [] i st = st := rfl

theorem runPlan_cons (count : Nat) (fails : Nat → Bool) (src dst : String)
    (rest : List (String × String)) (i : Nat) (st : RenState) :
    runPlan count fails ((src, dst) :: rest) i st =
      runPlan count fails rest (i + 1) (processOne count st src dst (fails i)) := rfl

theorem mkPlanFrom_nil (start : Nat) : mkPlanFrom start [] = [] := rfl

theorem mkPlanFrom_cons (start : Nat) (x : String) (xs : List String) :
    mkPlanFrom start (x :: xs) = (x, seqName start) :: mkPlanFrom (start + 1) xs := by
  simp [mkPlanFrom, List.range']

theorem mkPlanFrom_length (start : Nat) (images : List String) :
    (mkPlanFrom start images).length = images.length := by
  simp [mkPlanFrom]

theorem mkPlanFrom_map_fst (start : Nat) (images : List String) :
    (mkPlanFrom start images).map Prod.fst = images := by
  induction images generalizing start with
  | nil => rfl
  | cons x xs ih => rw [mkPlanFrom_cons, List.map_cons, ih]

theorem renamedDests_append (l1 l2 : List Outcome) :
    renamedDests (l1 ++ l2) = renamedDests l1 ++ renamedDests l2 := by
  simp [renamedDests]

/-! ### Run-level lemmas -/

/-- A plan whose every pair already has the correct name is skipped
wholesale: no rename, no disk change. -/
theorem runPlan_all_same (count : Nat) (fails : Nat → Bool) :
    ∀ (plan : List (String × String)) (i : Nat) (st : RenState),
    (∀ p ∈ plan, p.1 = p.2) →
    runPlan count fails plan i st =
      { st with skippedCount := st.skippedCount + plan.length,
                log := st.log ++ plan.map (fun p => Outcome.skippedSame p.1) } := by
  intro plan
  induction plan with
  | nil =>
    intro i st _
    simp [runPlan_nil]
  | cons p rest ih =>
    intro i st hsame
    obtain ⟨src, dst⟩ := p
    have hsd : src = dst := hsame (src, dst) (List.mem_cons_self _ _)
    subst hsd
    have hres : resolveDst count st.disk src src = src := by
      rw [resolveDst, if_neg]
      rintro ⟨_, hne⟩
      exact hne rfl
    rw [runPlan_cons, processOne_same _ _ _ _ _ hres,
      ih (i + 1) _ (fun p hp => hsame p (List.mem_cons_of_mem _ hp))]
    simp
    omega

/-- Every processed file bumps exactly one of the two counters and adds
exactly one log entry; the counters track the log. -/
theorem processOne_counts (count : Nat) (st : RenState) (src dst : String) (fail : Bool) :
    (processOne count st src dst fail).renamedCount +
        (processOne count st src dst fail).skippedCount =
      st.renamedCount + st.skippedCount + 1 ∧
    (processOne count st src dst fail).log.length = st.log.length + 1 ∧
    (st.renamedCount = (st.log.filter isRenamedOutcome).length →
      (processOne count st src dst fail).renamedCount =
        ((processOne count st src dst fail).log.filter isRenamedOutcome).length) ∧
    (st.skippedCount = (st.log.filter (fun o => !isRenamedOutcome o)).length →
      (processOne count st src dst fail).skippedCount =
        ((processOne count st src dst fail).log.filter (fun o => !isRenamedOutcome o)).length) := by
  rw [processOne]
  split
  · refine ⟨by simp; omega, by simp, ?_, ?_⟩
    · intro h
      simp [isRenamedOutcome, h]
    · intro h
      simp [isRenamedOutcome, h]
  · split
    · refine ⟨by simp; omega, by simp, ?_, ?_⟩
      · intro h
        simp [isRenamedOutcome, h]
      · intro h
        simp [isRenamedOutcome, h]
    · refine ⟨by simp; omega, by simp, ?_, ?_⟩
      · intro h
        simp [isRenamedOutcome, h]
      · intro h
        simp [isRenamedOutcome, h]

/-- Counter bookkeeping over a whole plan. -/
theorem runPlan_counts (count : Nat) (fails : Nat → Bool) :
    ∀ (plan : List (String × String)) (i : Nat) (st : RenState),
    (runPlan count fails plan i st).renamedCount +
        (runPlan count fails plan i st).skippedCount =
      st.renamedCount + st.skippedCount + plan.length ∧
    (runPlan count fails plan i st).log.length = st.log.length + plan.length ∧
    (st.renamedCount = (st.log.filter isRenamedOutcome).length →
      (runPlan count fails plan i st).renamedCount =
        ((runPlan count fails plan i st).log.filter isRenamedOutcome).length) ∧
    (st.skippedCount = (st.log.filter (fun o => !isRenamedOutcome o)).length →
      (runPlan count fails plan i st).skippedCount =
        ((runPlan count fails plan i st).log.filter (fun o => !isRenamedOutcome o)).length) := by
  intro plan
  induction plan with
  | nil =>
    intro i st
    exact ⟨rfl, rfl, fun h => h, fun h => h⟩
  | cons p rest ih =>
    intro i st
    obtain ⟨src, dst⟩ := p
    rw [runPlan_cons]
    obtain ⟨ha, hb, hc, hd⟩ := processOne_counts count st src dst (fails i)
    obtain ⟨ra, rb, rc, rd⟩ := ih (i + 1) (processOne count st src dst (fails i))
    refine ⟨?_, ?_, fun h => rc (hc h), fun h => rd (hd h)⟩
    · rw [List.length_cons]
      omega
    · rw [List.length_cons]
      omega

/-- Appending a non-rename outcome does not change the rename log. -/
theorem renamedDests_skipSame (log : List Outcome) (src : String) :
    renamedDests (log ++ [Outcome.skippedSame src]) = renamedDests log := by
  simp [renamedDests]

theorem renamedDests_skipError (log : List Outcome) (src dst : String) :
    renamedDests (log ++ [Outcome.skippedError src dst]) = renamedDests log := by
  simp [renamedDests]

theorem renamedDests_renamed (log : List Outcome) (src dst : String) :
    renamedDests (log ++ [Outcome.renamed src dst]) = renamedDests log ++ [dst] := by
  simp [renamedDests]

/-- Sequential run without pre-existing targets: every file is renamed
to its positional target.  `done` files have been processed already. -/
theorem runPlan_seq (count : Nat) (fails : Nat → Bool) (hfail : ∀ i, fails i = false) :
    ∀ (rest : List String) (done i0 : Nat) (st : RenState),
    st.disk.Nodup →
    rest.Nodup →
    (∀ s ∈ rest, s ∈ st.disk) →
    (∀ k, done < k → k ≤ done + rest.length → seqName k ∉ st.disk) →
    (runPlan count fails (mkPlanFrom (done + 1) rest) i0 st).renamedCount =
        st.renamedCount + rest.length ∧
    (runPlan count fails (mkPlanFrom (done + 1) rest) i0 st).skippedCount = st.skippedCount ∧
    (runPlan count fails (mkPlanFrom (done + 1) rest) i0 st).log =
        st.log ++ ((List.range' (done + 1) rest.length).zip rest).map
          (fun p => Outcome.renamed p.2 (seqName p.1)) := by
  intro rest
  induction rest with
  | nil =>
    intro done i0 st _ _ _ _
    simp [mkPlanFrom_nil, runPlan_nil]
  | cons src rest' ih =>
    intro done i0 st hdisk hnd hsub htgt
    have hsrc : src ∈ st.disk := hsub src (List.mem_cons_self _ _)
    have htgt1 : seqName (done + 1) ∉ st.disk :=
      htgt (done + 1) (by omega) (by rw [List.length_cons]; omega)
    have hres : resolveDst count st.disk src (seqName (done + 1)) = seqName (done + 1) := by
      rw [resolveDst, if_neg]
      rintro ⟨hmem, _⟩
      exact htgt1 hmem
    have hne : resolveDst count st.disk src (seqName (done + 1)) ≠ src := by
      rw [hres]
      intro h
      exact htgt1 (h ▸ hsrc)
    rw [mkPlanFrom_cons, runPlan_cons, hfail i0, processOne_rename _ _ _ _ hne, hres]
    set st' : RenState :=
      { disk := seqName (done + 1) :: st.disk.erase src,
        renamedCount := st.renamedCount + 1,
        skippedCount := st.skippedCount,
        log := st.log ++ [Outcome.renamed src (seqName (done + 1))] }
    have e1 : st'.renamedCount = st.renamedCount + 1 := rfl
    have e2 : st'.skippedCount = st.skippedCount := rfl
    have e3 : st'.log = st.log ++ [Outcome.renamed src (seqName (done + 1))] := rfl
    have e4 : st'.disk = seqName (done + 1) :: st.disk.erase src := rfl
    have h1 : st'.disk.Nodup := by
      rw [e4]
      refine List.Nodup.cons ?_ (List.Nodup.erase _ hdisk)
      intro hmem
      exact htgt1 (List.mem_of_mem_erase hmem)
    have h2 : rest'.Nodup := hnd.of_cons
    have h3 : ∀ s ∈ rest', s ∈ st'.disk := by
      intro s hs
      have hne' : s ≠ src := by
        intro h
        exact (List.nodup_cons.mp hnd).1 (h ▸ hs)
      rw [e4]
      exact List.mem_cons_of_mem _
        ((List.mem_erase_of_ne hne').mpr (hsub s (List.mem_cons_of_mem _ hs)))
    have h4 : ∀ k, done + 1 < k → k ≤ done + 1 + rest'.length → seqName k ∉ st'.disk := by
      intro k hk1 hk2
      rw [e4]
      intro hmem
      rcases List.mem_cons.mp hmem with h | h
      · have := seqName_inj h
        omega
      · exact htgt k (by omega) (by rw [List.length_cons]; omega) (List.mem_of_mem_erase h)
    obtain ⟨ra, rb, rc⟩ := ih (done + 1) (i0 + 1) st' h1 h2 h3 h4
    refine ⟨?_, ?_, ?_⟩
    · rw [ra, e1, List.length_cons]
      omega
    · rw [rb, e2]
    · rw [rc, e3, List.length_cons]
      have hrange : List.range' (done + 1) (rest'.length + 1) =
          (done + 1) :: List.range' (done + 1 + 1) rest'.length := rfl
      rw [hrange]
      simp [List.zip_cons_cons]

/-- The distinct-destination invariant: processing any plan whose
sources are distinct and live on disk keeps the destinations of the
performed renames distinct, on disk, and distinct from the pending
sources. -/
theorem runPlan_dests (count : Nat) (fails : Nat → Bool) :
    ∀ (plan : List (String × String)) (i : Nat) (st : RenState),
    st.disk.Nodup →
    (plan.map Prod.fst).Nodup →
    (∀ p ∈ plan, p.1 ∈ st.disk) →
    (renamedDests st.log).Nodup →
    (∀ d ∈ renamedDests st.log, d ∈ st.disk) →
    (∀ d ∈ renamedDests st.log, ∀ p ∈ plan, d ≠ p.1) →
    (renamedDests (runPlan count fails plan i st).log).Nodup ∧
    (∀ d ∈ renamedDests (runPlan count fails plan i st).log,
        d ∈ (runPlan count fails plan i st).disk) ∧
    (runPlan count fails plan i st).disk.Nodup := by
  intro plan
  induction plan with
  | nil =>
    intro i st h1 _ _ h4 h5 _
    exact ⟨h4, h5, h1⟩
  | cons p rest ih =>
    intro i st hdisk hsrcs hlive hnd hmem hsep
    obtain ⟨src, dst⟩ := p
    rw [runPlan_cons]
    have hsrc : src ∈ st.disk := hlive (src, dst) (List.mem_cons_self _ _)
    have hsrcs0 : (((src, dst) :: rest).map Prod.fst).Nodup := hsrcs
    have hsrcs' : (rest.map Prod.fst).Nodup := by
      rw [List.map_cons] at hsrcs0
      exact hsrcs0.of_cons
    have hlive' : ∀ q ∈ rest, q.1 ∈ st.disk :=
      fun q hq => hlive q (List.mem_cons_of_mem _ hq)
    have hsep' : ∀ d ∈ renamedDests st.log, ∀ q ∈ rest, d ≠ q.1 :=
      fun d hd q hq => hsep d hd q (List.mem_cons_of_mem _ hq)
    -- a skipped file leaves disk and rename log unchanged
    have skipStep : ∀ (o : Outcome), renamedDests (st.log ++ [o]) = renamedDests st.log →
        (renamedDests (runPlan count fails rest (i + 1)
            { st with skippedCount := st.skippedCount + 1, log := st.log ++ [o] }).log).Nodup ∧
        (∀ d ∈ renamedDests (runPlan count fails rest (i + 1)
            { st with skippedCount := st.skippedCount + 1, log := st.log ++ [o] }).log,
          d ∈ (runPlan count fails rest (i + 1)
            { st with skippedCount := st.skippedCount + 1, log := st.log ++ [o] }).disk) ∧
        (runPlan count fails rest (i + 1)
            { st with skippedCount := st.skippedCount + 1, log := st.log ++ [o] }).disk.Nodup := by
      intro o ho
      apply ih
      · exact hdisk
      · exact hsrcs'
      · exact hlive'
      · show (renamedDests (st.log ++ [o])).Nodup
        rw [ho]
        exact hnd
      · intro d hd
        have hd2 : d ∈ renamedDests (st.log ++ [o]) := hd
        rw [ho] at hd2
        exact hmem d hd2
      · intro d hd
        have hd2 : d ∈ renamedDests (st.log ++ [o]) := hd
        rw [ho] at hd2
        exact hsep' d hd2
    rcases resolveDst_spec count st.disk src dst with hsame | hfree
    · rw [processOne_same _ _ _ _ _ hsame]
      exact skipStep _ (renamedDests_skipSame _ _)
    · by_cases hne : resolveDst count st.disk src dst = src
      · rw [processOne_same _ _ _ _ _ hne]
        exact skipStep _ (renamedDests_skipSame _ _)
      · cases hf : fails i with
        | true =>
          rw [processOne_fail _ _ _ _ hne]
          exact skipStep _ (renamedDests_skipError _ _ _)
        | false =>
          rw [processOne_rename _ _ _ _ hne]
          set d' := resolveDst count st.disk src dst with hd'
          set st' : RenState :=
            { disk := d' :: st.disk.erase src,
              renamedCount := st.renamedCount + 1,
              skippedCount := st.skippedCount,
              log := st.log ++ [Outcome.renamed src d'] }
          have e3 : st'.log = st.log ++ [Outcome.renamed src d'] := rfl
          have e4 : st'.disk = d' :: st.disk.erase src := rfl
          have hsrcne : ∀ q ∈ rest, q.1 ≠ src := by
            intro q hq h
            have hmm : src ∈ rest.map Prod.fst := by
              rw [← h]
              exact List.mem_map_of_mem _ hq
            rw [List.map_cons] at hsrcs0
            exact (List.nodup_cons.mp hsrcs0).1 hmm
          apply ih
          · rw [e4]
            refine List.Nodup.cons ?_ (List.Nodup.erase _ hdisk)
            intro hc
            exact hfree (List.mem_of_mem_erase hc)
          · exact hsrcs'
          · intro q hq
            rw [e4]
            exact List.mem_cons_of_mem _
              ((List.mem_erase_of_ne (hsrcne q hq)).mpr (hlive' q hq))
          · show (renamedDests (st.log ++ [Outcome.renamed src d'])).Nodup
            rw [renamedDests_renamed, List.nodup_append]
            refine ⟨hnd, List.nodup_singleton _, ?_⟩
            intro a ha
            simp only [List.mem_singleton]
            intro hb
            exact hfree (hb ▸ hmem a ha)
          · intro d hd
            have hd2 : d ∈ renamedDests (st.log ++ [Outcome.renamed src d']) := hd
            rw [renamedDests_renamed] at hd2
            rw [e4]
            rcases List.mem_append.mp hd2 with h | h
            · have hdold : d ∈ st.disk := hmem d h
              have hdne : d ≠ src := hsep d h (src, dst) (List.mem_cons_self _ _)
              exact List.mem_cons_of_mem _ ((List.mem_erase_of_ne hdne).mpr hdold)
            · rw [List.mem_singleton.mp h]
              exact List.mem_cons_self _ _
          · intro d hd q hq
            have hd2 : d ∈ renamedDests (st.log ++ [Outcome.renamed src d']) := hd
            rw [renamedDests_renamed] at hd2
            rcases List.mem_append.mp hd2 with h | h
            · exact hsep' d h q hq
            · rw [List.mem_singleton.mp h]
              intro hb
              exact hfree (hb ▸ hlive' q hq)

/-- Unfolding of `rename_files_automatically` on an existing directory. -/
theorem renameFilesAutomatically_some (listing : List String) (fails : Nat → Bool) :
    renameFilesAutomatically (some listing) fails =
      if (getImageFiles listing).isEmpty then ⟨false, initState listing⟩
      else ⟨false, runPlan (getImageFiles listing).length fails
        (mkPlan (getImageFiles listing)) 0 (initState listing)⟩ := rfl

/-- A rename entry of the step's log is an old entry or carries the
resolved destination. -/
theorem processOne_log_mem (count : Nat) (st : RenState) (src0 dst0 : String) (fail : Bool) :
    ∀ s d, Outcome.renamed s d ∈ (processOne count st src0 dst0 fail).log →
      Outcome.renamed s d ∈ st.log ∨ d = resolveDst count st.disk src0 dst0 := by
  intro s d hd
  rw [processOne] at hd
  split at hd
  · have hd2 : Outcome.renamed s d ∈ st.log ++ [Outcome.skippedSame src0] := hd
    rcases List.mem_append.mp hd2 with h | h
    · exact Or.inl h
    · simp at h
  · split at hd
    · have hd2 : Outcome.renamed s d ∈
          st.log ++ [Outcome.skippedError src0 (resolveDst count st.disk src0 dst0)] := hd
      rcases List.mem_append.mp hd2 with h | h
      · exact Or.inl h
      · simp at h
    · have hd2 : Outcome.renamed s d ∈
          st.log ++ [Outcome.renamed src0 (resolveDst count st.disk src0 dst0)] := hd
      rcases List.mem_append.mp hd2 with h | h
      · exact Or.inl h
      · rw [List.mem_singleton] at h
        injection h with h1 h2
        exact Or.inr h2

/-- The resolver keeps the planned destination or picks a fallback name. -/
theorem resolveDst_shape (count : Nat) (disk : List String) (src dst : String) :
    resolveDst count disk src dst = dst ∨
      ∃ c, 1 ≤ c ∧ resolveDst count disk src dst = fallbackName (count + c) := by
  rw [resolveDst]
  split
  · right
    obtain ⟨k, hk⟩ := fallbackLoop_shape disk count (disk.length + 1) 1
    exact ⟨1 + k, by omega, hk⟩
  · left
    rfl

/-- Every rename a sequential plan performs goes to a positional target
`001.jpg … n.jpg` or to a fallback `image_*.jpg` name. -/
theorem runPlan_shape (count n : Nat) (fails : Nat → Bool) :
    ∀ (rest : List String) (s i : Nat) (st : RenState),
    1 ≤ s → s + rest.length ≤ n + 1 →
    (∀ src d, Outcome.renamed src d ∈ st.log → destShape count n d) →
    (∀ src d, Outcome.renamed src d ∈ (runPlan count fails (mkPlanFrom s rest) i st).log →
      destShape count n d) := by
  intro rest
  induction rest with
  | nil =>
    intro s i st _ _ hlog
    rw [mkPlanFrom_nil, runPlan_nil]
    exact hlog
  | cons x rest' ih =>
    intro s i st hs hbound hlog
    rw [mkPlanFrom_cons, runPlan_cons]
    apply ih (s + 1) (i + 1)
    · omega
    · rw [List.length_cons] at hbound
      omega
    · intro src d hd
      rcases processOne_log_mem count st x (seqName s) (fails i) src d hd with h | h
      · exact hlog src d h
      · rcases resolveDst_shape count st.disk x (seqName s) with h2 | h2
        · left
          refine ⟨s, hs, ?_, by rw [h, h2]⟩
          rw [List.length_cons] at hbound
          omega
        · obtain ⟨c, hc1, hc2⟩ := h2
          right
          exact ⟨c, hc1, by rw [h, hc2]⟩

/-! ### The claims -/

/-- C2: for a planned pair whose destination already exists on disk as a
different path than the source, the resolver replaces the destination by
`image_{count+c:03d}.jpg` where the index starts at `count + 1`
(`count` being the scanned file total passed to the loop) and increments
until a name not on disk is found, and the rename then uses that
non-colliding fallback name. -/
theorem collision_fallback_resolution (count : Nat) (st : RenState) (src dst : String)
    (hmem : dst ∈ st.disk) (hne : dst ≠ src) (hsrc : src ∈ st.disk) :
    ∃ c, 1 ≤ c ∧
      resolveDst count st.disk src dst = fallbackName (count + c) ∧
      fallbackName (count + c) ∉ st.disk ∧
      (∀ j, 1 ≤ j → j < c → fallbackName (count + j) ∈ st.disk) ∧
      processOne count st src dst false =
        { disk := fallbackName (count + c) :: st.disk.erase src,
          renamedCount := st.renamedCount + 1,
          skippedCount := st.skippedCount,
          log := st.log ++ [Outcome.renamed src (fallbackName (count + c))] } := by
  obtain ⟨c, hc1, hc2, hc3, hc4⟩ := resolveDst_collision count st.disk src dst hmem hne
  have hne2 : resolveDst count st.disk src dst ≠ src := by
    rw [hc2]
    intro h
    exact hc3 (h ▸ hsrc)
  refine ⟨c, hc1, hc2, hc3, hc4, ?_⟩
  rw [processOne_rename _ _ _ _ hne2, hc2]

/-- Witness for C2: two files `002.jpg`, `a.jpg`; renaming `a.jpg` to
the occupied `002.jpg` must fall back. -/
theorem collision_fallback_resolution_witness :
    "002.jpg" ∈ (⟨["002.jpg", "a.jpg"], 0, 0, []⟩ : RenState).disk ∧
    "002.jpg" ≠ "a.jpg" ∧
    "a.jpg" ∈ (⟨["002.jpg", "a.jpg"], 0, 0, []⟩ : RenState).disk ∧
    (∃ c, 1 ≤ c ∧
      resolveDst 2 (⟨["002.jpg", "a.jpg"], 0, 0, []⟩ : RenState).disk "a.jpg" "002.jpg" =
        fallbackName (2 + c) ∧
      fallbackName (2 + c) ∉ (⟨["002.jpg", "a.jpg"], 0, 0, []⟩ : RenState).disk ∧
      (∀ j, 1 ≤ j → j < c →
        fallbackName (2 + j) ∈ (⟨["002.jpg", "a.jpg"], 0, 0, []⟩ : RenState).disk) ∧
      processOne 2 (⟨["002.jpg", "a.jpg"], 0, 0, []⟩ : RenState) "a.jpg" "002.jpg" false =
        { disk := fallbackName (2 + c) ::
            (⟨["002.jpg", "a.jpg"], 0, 0, []⟩ : RenState).disk.erase "a.jpg",
          renamedCount := (⟨["002.jpg", "a.jpg"], 0, 0, []⟩ : RenState).renamedCount + 1,
          skippedCount := (⟨["002.jpg", "a.jpg"], 0, 0, []⟩ : RenState).skippedCount,
          log := (⟨["002.jpg", "a.jpg"], 0, 0, []⟩ : RenState).log ++
            [Outcome.renamed "a.jpg" (fallbackName (2 + c))] }) :=
  ⟨by decide, by decide, by decide,
    collision_fallback_resolution 2 ⟨["002.jpg", "a.jpg"], 0, 0, []⟩ "a.jpg" "002.jpg"
      (by decide) (by decide) (by decide)⟩

/-- C4: a filesystem error while renaming one file is caught locally —
the skipped counter is incremented, the directory and the renamed
counter are untouched, an error entry is logged, and the loop continues
with the next file. -/
theorem rename_error_isolated (count : Nat) (st : RenState) (src dst : String)
    (rest : List (String × String)) (i : Nat) (fails : Nat → Bool)
    (hne : resolveDst count st.disk src dst ≠ src) :
    processOne count st src dst true =
      { st with skippedCount := st.skippedCount + 1,
                log := st.log ++ [Outcome.skippedError src (resolveDst count st.disk src dst)] } ∧
    runPlan count fails ((src, dst) :: rest) i st =
      runPlan count fails rest (i + 1) (processOne count st src dst (fails i)) :=
  ⟨processOne_fail count st src dst hne, runPlan_cons count fails src dst rest i st⟩

/-- Witness for C4: five files `a.jpg … e.jpg` with a simulated failure
on the third rename; the step is isolated and the batch finishes with 4
renamed, 1 skipped. -/
theorem rename_error_isolated_witness :
    resolveDst 5 (⟨["a.jpg", "b.jpg", "c.jpg", "d.jpg", "e.jpg"], 0, 0, []⟩ : RenState).disk
        "c.jpg" "003.jpg" ≠ "c.jpg" ∧
    processOne 5 (⟨["a.jpg", "b.jpg", "c.jpg", "d.jpg", "e.jpg"], 0, 0, []⟩ : RenState)
        "c.jpg" "003.jpg" true =
      { (⟨["a.jpg", "b.jpg", "c.jpg", "d.jpg", "e.jpg"], 0, 0, []⟩ : RenState) with
          skippedCount :=
            (⟨["a.jpg", "b.jpg", "c.jpg", "d.jpg", "e.jpg"], 0, 0, []⟩ : RenState).skippedCount + 1,
          log := (⟨["a.jpg", "b.jpg", "c.jpg", "d.jpg", "e.jpg"], 0, 0, []⟩ : RenState).log ++
            [Outcome.skippedError "c.jpg"
              (resolveDst 5
                (⟨["a.jpg", "b.jpg", "c.jpg", "d.jpg", "e.jpg"], 0, 0, []⟩ : RenState).disk
                "c.jpg" "003.jpg")] } ∧
    (renameFilesAutomatically (some ["a.jpg", "b.jpg", "c.jpg", "d.jpg", "e.jpg"])
        (fun i => decide (i = 2))).state.renamedCount = 4 ∧
    (renameFilesAutomatically (some ["a.jpg", "b.jpg", "c.jpg", "d.jpg", "e.jpg"])
        (fun i => decide (i = 2))).state.skippedCount = 1 :=
  ⟨by decide,
    (rename_error_isolated 5 ⟨["a.jpg", "b.jpg", "c.jpg", "d.jpg", "e.jpg"], 0, 0, []⟩
      "c.jpg" "003.jpg" [] 0 (fun i => decide (i = 2)) (by decide)).1,
    by decide, by decide⟩

/-- C6: a non-existent directory input is reported and the run aborts
before any rename — the filesystem is untouched, both counters are 0
and nothing is logged, whatever the confirmation answer was. -/
theorem dir_not_found_aborts (response : String) (fails : Nat → Bool) :
    renameFilesAutomatically none fails = ⟨true, ⟨[], 0, 0, []⟩⟩ ∧
    mainRun none response fails = (MainResult.dirNotFound, none) :=
  ⟨rfl, rfl⟩

/-- C1: on a directory containing only files with supported extensions,
when no target name `001.jpg … NNN.jpg` pre-exists (hence no file
already bears its target name) and no filesystem error occurs,
sequential mode renames exactly `N` files: the `i`-th file in
name-sorted order goes to `seqName i = f"{i:03d}.jpg"`, regardless of
its original extension. -/
theorem sequential_renames_all (listing : List String)
    (hnd : listing.Nodup)
    (hsupp : ∀ nm ∈ listing, lowerStr (pathSuffix nm) ∈ supportedFormats)
    (htgt : ∀ k ∈ List.range' 1 (getImageFiles listing).length, seqName k ∉ listing) :
    (getImageFiles listing).length = listing.length ∧
    (renameFilesAutomatically (some listing) (fun _ => false)).state.renamedCount =
      (getImageFiles listing).length ∧
    (renameFilesAutomatically (some listing) (fun _ => false)).state.skippedCount = 0 ∧
    (renameFilesAutomatically (some listing) (fun _ => false)).state.log =
      ((List.range' 1 (getImageFiles listing).length).zip (getImageFiles listing)).map
        (fun p => Outcome.renamed p.2 (seqName p.1)) := by
  have hfilter :
      listing.filter (fun n => decide (lowerStr (pathSuffix n) ∈ supportedFormats)) = listing := by
    apply List.filter_eq_self.mpr
    intro a ha
    simpa using hsupp a ha
  have hperm : (getImageFiles listing).Perm listing := by
    rw [getImageFiles, hfilter]
    exact List.perm_insertionSort nameLe listing
  have hlen : (getImageFiles listing).length = listing.length := hperm.length_eq
  have himgnd : (getImageFiles listing).Nodup := (List.Perm.nodup_iff hperm).mpr hnd
  have hsub : ∀ s ∈ getImageFiles listing, s ∈ listing := fun s hs => hperm.mem_iff.mp hs
  refine ⟨hlen, ?_⟩
  rw [renameFilesAutomatically_some]
  by_cases hemp : (getImageFiles listing).isEmpty
  · rw [if_pos hemp]
    have hnil : getImageFiles listing = [] := List.isEmpty_iff.mp hemp
    rw [hnil]
    simp [initState]
  · rw [if_neg hemp]
    have h4 : ∀ k, 0 < k → k ≤ 0 + (getImageFiles listing).length →
        seqName k ∉ (initState listing).disk := by
      intro k hk1 hk2
      apply htgt
      rw [List.mem_range']
      exact ⟨k - 1, by omega, by omega⟩
    obtain ⟨ra, rb, rc⟩ := runPlan_seq (getImageFiles listing).length (fun _ => false)
      (fun _ => rfl) (getImageFiles listing) 0 0 (initState listing) hnd himgnd hsub h4
    refine ⟨?_, ?_, ?_⟩
    · rw [show mkPlan (getImageFiles listing) = mkPlanFrom (0 + 1) (getImageFiles listing)
        from rfl, ra]
      simp [initState]
    · rw [show mkPlan (getImageFiles listing) = mkPlanFrom (0 + 1) (getImageFiles listing)
        from rfl, rb]
      rfl
    · rw [show mkPlan (getImageFiles listing) = mkPlanFrom (0 + 1) (getImageFiles listing)
        from rfl, rc]
      simp [initState]

/-- Witness for C1: `["b.png", "a.jpg"]` — two supported files, no
pre-existing targets; both renamed, `a.jpg` (first in sorted order) to
`001.jpg`, `b.png` to `002.jpg`. -/
theorem sequential_renames_all_witness :
    (["b.png", "a.jpg"] : List String).Nodup ∧
    (∀ nm ∈ (["b.png", "a.jpg"] : List String),
      lowerStr (pathSuffix nm) ∈ supportedFormats) ∧
    (∀ k ∈ List.range' 1 (getImageFiles ["b.png", "a.jpg"]).length,
      seqName k ∉ (["b.png", "a.jpg"] : List String)) ∧
    ((getImageFiles ["b.png", "a.jpg"]).length = (["b.png", "a.jpg"] : List String).length ∧
    (renameFilesAutomatically (some ["b.png", "a.jpg"]) (fun _ => false)).state.renamedCount =
      (getImageFiles ["b.png", "a.jpg"]).length ∧
    (renameFilesAutomatically (some ["b.png", "a.jpg"]) (fun _ => false)).state.skippedCount = 0 ∧
    (renameFilesAutomatically (some ["b.png", "a.jpg"]) (fun _ => false)).state.log =
      ((List.range' 1 (getImageFiles ["b.png", "a.jpg"]).length).zip
          (getImageFiles ["b.png", "a.jpg"])).map
        (fun p => Outcome.renamed p.2 (seqName p.1))) :=
  ⟨by decide, by decide, by decide,
    sequential_renames_all ["b.png", "a.jpg"] (by decide) (by decide) (by decide)⟩

/-- The plan built over already-correctly-named files pairs every name
with itself. -/
theorem mkPlanFrom_seq : ∀ (m s : Nat),
    mkPlanFrom s ((List.range' s m).map seqName) =
      (List.range' s m).map (fun k => (seqName k, seqName k)) := by
  intro m
  induction m with
  | zero => intro s; rfl
  | succ m ih =>
    intro s
    have h1 : List.range' s (m + 1) = s :: List.range' (s + 1) m := rfl
    rw [h1, List.map_cons, mkPlanFrom_cons, List.map_cons, ih (s + 1)]

theorem renamedDests_map_skipped (l : List (String × String)) :
    renamedDests (l.map (fun p => Outcome.skippedSame p.1)) = [] := by
  induction l with
  | nil => rfl
  | cons p rest ih => simp [renamedDests]

/-- C3: sequential mode is idempotent — when the scan returns exactly
`001.jpg … NNN.jpg` in order (each file's name equals its planned
destination), no rename is performed: the directory is unchanged, the
rename log is empty, 0 renamed and `n` skipped are reported. -/
theorem idempotent_on_named (listing : List String) (n : Nat) (fails : Nat → Bool)
    (hscan : getImageFiles listing = (List.range' 1 n).map seqName) :
    (renameFilesAutomatically (some listing) fails).state.renamedCount = 0 ∧
    (renameFilesAutomatically (some listing) fails).state.skippedCount = n ∧
    (renameFilesAutomatically (some listing) fails).state.disk = listing ∧
    renamedDests (renameFilesAutomatically (some listing) fails).state.log = [] := by
  rw [renameFilesAutomatically_some]
  by_cases hemp : (getImageFiles listing).isEmpty
  · rw [if_pos hemp]
    have hnil : getImageFiles listing = [] := List.isEmpty_iff.mp hemp
    rw [hscan] at hnil
    have hn : n = 0 := by
      have := congrArg List.length hnil
      simpa using this
    subst hn
    exact ⟨rfl, rfl, rfl, rfl⟩
  · rw [if_neg hemp]
    have hsame : ∀ p ∈ mkPlan (getImageFiles listing), p.1 = p.2 := by
      rw [hscan, mkPlan, mkPlanFrom_seq]
      intro p hp
      rw [List.mem_map] at hp
      obtain ⟨k, _, rfl⟩ := hp
      rfl
    rw [runPlan_all_same _ _ _ _ _ hsame]
    have hplen : (mkPlan (getImageFiles listing)).length = n := by
      rw [mkPlan, mkPlanFrom_length, hscan, List.length_map, List.length_range']
    refine ⟨rfl, ?_, rfl, ?_⟩
    · show (initState listing).skippedCount + (mkPlan (getImageFiles listing)).length = n
      rw [hplen]
      exact Nat.zero_add n
    · show renamedDests ((initState listing).log ++
        (mkPlan (getImageFiles listing)).map (fun p => Outcome.skippedSame p.1)) = []
      rw [show (initState listing).log = [] from rfl, List.nil_append,
        renamedDests_map_skipped]

/-- Witness for C3: a directory already named `001.jpg`, `002.jpg`. -/
theorem idempotent_on_named_witness :
    getImageFiles ["001.jpg", "002.jpg"] = (List.range' 1 2).map seqName ∧
    ((renameFilesAutomatically (some ["001.jpg", "002.jpg"])
        (fun _ => false)).state.renamedCount = 0 ∧
    (renameFilesAutomatically (some ["001.jpg", "002.jpg"])
        (fun _ => false)).state.skippedCount = 2 ∧
    (renameFilesAutomatically (some ["001.jpg", "002.jpg"])
        (fun _ => false)).state.disk = ["001.jpg", "002.jpg"] ∧
    renamedDests (renameFilesAutomatically (some ["001.jpg", "002.jpg"])
        (fun _ => false)).state.log = []) :=
  ⟨by decide, idempotent_on_named ["001.jpg", "002.jpg"] 2 (fun _ => false) (by decide)⟩

/-- C5: within one run, the destinations of the renames that are
actually performed are pairwise distinct — sequential targets carry
distinct indices and every fallback is checked against the disk after
earlier renames have materialized, so no two files of a batch are
renamed to the same path. -/
theorem destinations_distinct (listing : List String) (fails : Nat → Bool)
    (hnd : listing.Nodup) :
    (renamedDests (renameFilesAutomatically (some listing) fails).state.log).Nodup := by
  rw [renameFilesAutomatically_some]
  by_cases hemp : (getImageFiles listing).isEmpty
  · rw [if_pos hemp]
    exact List.nodup_nil
  · rw [if_neg hemp]
    have himgnd : (getImageFiles listing).Nodup := by
      have hp := List.perm_insertionSort nameLe
        (listing.filter (fun n => decide (lowerStr (pathSuffix n) ∈ supportedFormats)))
      exact (List.Perm.nodup_iff hp).mpr (hnd.filter _)
    refine (runPlan_dests (getImageFiles listing).length fails
      (mkPlan (getImageFiles listing)) 0 (initState listing) hnd ?_ ?_
      List.nodup_nil ?_ ?_).1
    · rw [mkPlan, mkPlanFrom_map_fst]
      exact himgnd
    · intro p hp
      have h1 : p.1 ∈ (mkPlan (getImageFiles listing)).map Prod.fst :=
        List.mem_map_of_mem _ hp
      rw [mkPlan, mkPlanFrom_map_fst] at h1
      have hp2 := List.perm_insertionSort nameLe
        (listing.filter (fun n => decide (lowerStr (pathSuffix n) ∈ supportedFormats)))
      have h2 := hp2.mem_iff.mp h1
      exact (List.mem_filter.mp h2).1
    · intro d hd
      exact absurd hd (List.not_mem_nil d)
    · intro d hd
      exact absurd hd (List.not_mem_nil d)

/-- Witness for C5: a two-file directory run end to end. -/
theorem destinations_distinct_witness :
    (["b.jpg", "a.jpg"] : List String).Nodup ∧
    (renamedDests (renameFilesAutomatically (some ["b.jpg", "a.jpg"])
        (fun _ => false)).state.log).Nodup :=
  ⟨by decide, destinations_distinct ["b.jpg", "a.jpg"] (fun _ => false) (by decide)⟩

/-- C9 (implicit): once the per-file loop is reached, every scanned file
ends in exactly one outcome and bumps exactly one counter: renamed +
skipped equals the number of scanned image files, the log has one entry
per file, and each counter equals the number of log entries of its
kind. -/
theorem counters_partition_files (listing : List String) (fails : Nat → Bool)
    (hne : getImageFiles listing ≠ []) :
    (renameFilesAutomatically (some listing) fails).state.renamedCount +
        (renameFilesAutomatically (some listing) fails).state.skippedCount =
      (getImageFiles listing).length ∧
    (renameFilesAutomatically (some listing) fails).state.log.length =
      (getImageFiles listing).length ∧
    (renameFilesAutomatically (some listing) fails).state.renamedCount =
      ((renameFilesAutomatically (some listing) fails).state.log.filter
        isRenamedOutcome).length ∧
    (renameFilesAutomatically (some listing) fails).state.skippedCount =
      ((renameFilesAutomatically (some listing) fails).state.log.filter
        (fun o => !isRenamedOutcome o)).length := by
  rw [renameFilesAutomatically_some,
    if_neg (by simpa [List.isEmpty_iff] using hne : ¬(getImageFiles listing).isEmpty = true)]
  obtain ⟨ra, rb, rc, rd⟩ := runPlan_counts (getImageFiles listing).length fails
    (mkPlan (getImageFiles listing)) 0 (initState listing)
  refine ⟨?_, ?_, rc rfl, rd rfl⟩
  · rw [ra]
    simp [initState, mkPlan, mkPlanFrom_length]
  · rw [rb]
    simp [initState, mkPlan, mkPlanFrom_length]

/-- Witness for C9: a one-file directory. -/
theorem counters_partition_files_witness :
    getImageFiles ["a.jpg"] ≠ [] ∧
    ((renameFilesAutomatically (some ["a.jpg"]) (fun _ => false)).state.renamedCount +
        (renameFilesAutomatically (some ["a.jpg"]) (fun _ => false)).state.skippedCount =
      (getImageFiles ["a.jpg"]).length ∧
    (renameFilesAutomatically (some ["a.jpg"]) (fun _ => false)).state.log.length =
      (getImageFiles ["a.jpg"]).length ∧
    (renameFilesAutomatically (some ["a.jpg"]) (fun _ => false)).state.renamedCount =
      ((renameFilesAutomatically (some ["a.jpg"]) (fun _ => false)).state.log.filter
        isRenamedOutcome).length ∧
    (renameFilesAutomatically (some ["a.jpg"]) (fun _ => false)).state.skippedCount =
      ((renameFilesAutomatically (some ["a.jpg"]) (fun _ => false)).state.log.filter
        (fun o => !isRenamedOutcome o)).length) :=
  ⟨by decide, counters_partition_files ["a.jpg"] (fun _ => false) (by decide)⟩

/-- Collapsing underscores only keeps characters of the input. -/
theorem collapseU_subset : ∀ (l : List Char), ∀ c ∈ collapseU l, c ∈ l := by
  intro l
  induction l with
  | nil =>
    intro c hc
    simp [collapseU] at hc
  | cons a t ih =>
    intro c hc
    match t with
    | [] =>
      simp [collapseU] at hc
      simp [hc]
    | b :: rest =>
      rw [collapseU] at hc
      split at hc
      · exact List.mem_cons_of_mem _ (ih c hc)
      · rcases List.mem_cons.mp hc with h | h
        · simp [h]
        · exact List.mem_cons_of_mem _ (ih c h)

/-- Stripping underscores only keeps characters of the input. -/
theorem stripUnderscores_subset (l : List Char) : ∀ c ∈ stripUnderscores l, c ∈ l := by
  intro c hc
  rw [stripUnderscores, List.mem_reverse] at hc
  have h1 := (List.dropWhile_sublist (l := (l.dropWhile (· = '_')).reverse)
    (p := (· = '_'))).mem hc
  rw [List.mem_reverse] at h1
  exact (List.dropWhile_sublist (l := l) (p := (· = '_'))).mem h1

/-- After the replacement pass no invalid character remains. -/
theorem replaceInvalid_clean (l : List Char) : ∀ c ∈ replaceInvalid l, c ∉ invalidChars := by
  intro c hc
  rw [replaceInvalid, List.mem_map] at hc
  obtain ⟨c0, _, hval⟩ := hc
  by_cases h0 : c0 ∈ invalidChars
  · rw [if_pos h0] at hval
    rw [← hval]
    decide
  · rw [if_neg h0] at hval
    rw [← hval]
    exact h0

/-- C7: the name generator's clean-up applies exactly the three steps of
lines 102-104 after placeholder substitution — replace each character of
`< > : " / \\ | ? *` by `_`, collapse runs of `_`, strip leading and
trailing `_`; a substituted string is never left with an invalid
character, and `My:File///Name` becomes `My_File_Name`. -/
theorem sanitization_steps :
    (∀ (f : FileInfo) (pattern : String) (counter : Option Nat) (metadata : Metadata),
      generateNewName f pattern counter metadata =
        sanitize (substitutePlaceholders f pattern counter metadata) ++ f.ext) ∧
    sanitize "My:File///Name" = "My_File_Name" ∧
    (∀ (s : String), ∀ c ∈ (sanitize s).data, c ∉ invalidChars) := by
  refine ⟨fun _ _ _ _ => rfl, by decide, ?_⟩
  intro s c hc
  have hc2 : c ∈ stripUnderscores (collapseU (replaceInvalid s.data)) := hc
  exact replaceInvalid_clean s.data c
    (collapseU_subset _ c (stripUnderscores_subset _ c hc2))

/-- Witness for C7: on `"a:b"` the sanitizer yields `"a_b"`, and the
surviving character `'a'` is indeed not an invalid one. -/
theorem sanitization_steps_witness :
    sanitize "a:b" = "a_b" ∧ 'a' ∈ (sanitize "a:b").data ∧ 'a' ∉ invalidChars :=
  ⟨by decide, by decide, sanitization_steps.2.2 "a:b" 'a' (by decide)⟩

/-- C8: in pattern mode every recognized placeholder is substituted —
with the empty string when its data is unavailable — and the original
extension is appended unchanged; in particular
`{original}_{counter}{format}` on `photo.png` with counter 2 and
metadata format `PNG` yields `photo_002PNG.png`, and a pattern made of
placeholders with no available data reduces to just the extension. -/
theorem pattern_substitution :
    (∀ (f : FileInfo) (pattern : String) (counter : Option Nat) (metadata : Metadata),
      ∃ base, generateNewName f pattern counter metadata = base ++ f.ext) ∧
    generateNewName samplePhoto "{original}_{counter}{format}" (some 2) pngMetadata =
      "photo_002PNG.png" ∧
    generateNewName samplePhoto "{width}{height}{resolution}{format}{camera}{counter}" none
      emptyMetadata = ".png" :=
  ⟨fun f pattern counter metadata =>
    ⟨sanitize (substitutePlaceholders f pattern counter metadata), rfl⟩,
    by decide, by decide⟩

/-- C10 (implicit): the interactive entry point never exercises pattern
mode or metadata extraction — a completed run requires the confirming
answer, its final state is exactly that of the sequential
`rename_files_automatically`, and every rename it performed targets a
sequential `{i:03d}.jpg` name or a collision fallback, never a
pattern-generated one. -/
theorem main_only_sequential (listing : List String) (response : String)
    (fails : Nat → Bool) (st : RenState) (p : Option (List String))
    (h : mainRun (some listing) response fails = (MainResult.completed st, p)) :
    confirmAccepted response = true ∧
    st = (renameFilesAutomatically (some listing) fails).state ∧
    p = some (renameFilesAutomatically (some listing) fails).state.disk ∧
    ∀ src d, Outcome.renamed src d ∈ st.log →
      destShape (getImageFiles listing).length (getImageFiles listing).length d := by
  rw [mainRun] at h
  by_cases hconf : confirmAccepted response
  · rw [if_pos hconf] at h
    rw [Prod.mk.injEq] at h
    obtain ⟨h1, h2⟩ := h
    injection h1 with h1
    refine ⟨hconf, h1.symm, h2.symm, ?_⟩
    rw [← h1]
    rw [renameFilesAutomatically_some]
    by_cases hemp : (getImageFiles listing).isEmpty
    · rw [if_pos hemp]
      intro src d hd
      exact absurd hd (List.not_mem_nil _)
    · rw [if_neg hemp]
      refine runPlan_shape (getImageFiles listing).length (getImageFiles listing).length
        fails (getImageFiles listing) 1 0 (initState listing) (le_refl 1) (by omega) ?_
      intro src d hd
      exact absurd hd (List.not_mem_nil _)
  · rw [if_neg hconf, Prod.mk.injEq] at h
    exact absurd h.1 (by simp)

/-- Witness for C10: a confirmed one-file run. -/
theorem main_only_sequential_witness :
    mainRun (some ["a.jpg"]) "y" (fun _ => false) =
      (MainResult.completed ⟨["001.jpg"], 1, 0, [Outcome.renamed "a.jpg" "001.jpg"]⟩,
        some ["001.jpg"]) ∧
    destShape (getImageFiles ["a.jpg"]).length (getImageFiles ["a.jpg"]).length "001.jpg" :=
  ⟨by decide,
    (main_only_sequential ["a.jpg"] "y" (fun _ => false)
        ⟨["001.jpg"], 1, 0, [Outcome.renamed "a.jpg" "001.jpg"]⟩ (some ["001.jpg"])
        (by decide)).2.2.2 "a.jpg" "001.jpg" (by decide)⟩

end RenameFiles
